import Mathlib

/-!
Verification development for the spec-driven request pipeline of an
OpenAPI-based MCP server.  The definitions below are a shallow embedding of
the TypeScript sources (src/helper/validation-helper.ts,
src/helper/http-helper.ts, src/helper/openapi-helper.ts,
src/constant/constants.ts, src/service/openapi-service.ts).  Strings are
modelled as lists of characters; JavaScript objects are modelled as ordered
association lists with unique keys (JavaScript object keys are unique and
iteration follows insertion order); JavaScript `undefined` for an absent
property is modelled by an `Option` lookup returning `none`.
-/

/-- Strings of the embedded program, as lists of characters. -/
abbrev Str := List Char

/-- Property lookup on an association list: models `obj[key]`, `none` being
the JavaScript `undefined` of an absent property. -/
def assocFind {α : Type} : List (Str × α) → Str → Option α
  | [], _ => none
  | (k, v) :: rest, key => if k = key then some v else assocFind rest key

/-- Boolean string membership used where the source calls `includes` on an
array of names. -/
def strMem (k : Str) : List Str → Bool
  | [] => false
  | x :: rest => if x = k then true else strMem k rest

/-- ASCII lower-casing of one character: models `toLowerCase` on the ASCII
fragment exercised by the program (header names, HTTP methods, domains). -/
def lowerChar (c : Char) : Char :=
  if 'A' ≤ c ∧ c ≤ 'Z' then Char.ofNat (c.toNat + 32) else c

/-- ASCII lower-casing of a string: models `String.prototype.toLowerCase`
on the ASCII fragment exercised by the program. -/
def lowerStr (s : Str) : Str := s.map lowerChar

/-- Models `Array.prototype.join(", ")` over a list of names. -/
def joinComma : List Str → Str
  | [] => []
  | [x] => x
  | x :: y :: rest => x ++ ',' :: ' ' :: joinComma (y :: rest)

/-- Boolean prefix test on character lists. -/
def strStartsWith : Str → Str → Bool
  | [], _ => true
  | _ :: _, [] => false
  | a :: as, b :: bs => if a = b then strStartsWith as bs else false

/-- Models `String.prototype.includes`: the pattern occurs somewhere in the
string. -/
def containsSub (pat : Str) : Str → Bool
  | [] => strStartsWith pat []
  | c :: rest => strStartsWith pat (c :: rest) || containsSub pat rest

/-- Models `String.prototype.replace` with a plain-string pattern: only the
first occurrence of the pattern is replaced. -/
def replaceFirst (pat repl : Str) : Str → Str
  | [] => if strStartsWith pat [] then repl else []
  | c :: rest =>
    if strStartsWith pat (c :: rest) then repl ++ (c :: rest).drop pat.length
    else c :: replaceFirst pat repl rest

/-- Models `String.prototype.replace` with a global regex whose pattern is a
plain nonempty string (first character given separately so the pattern is
never empty): every occurrence is replaced, scanning left to right. -/
def replaceAllSub (p0 : Char) (prest repl : Str) : Str → Str
  | [] => []
  | c :: rest =>
    if strStartsWith (p0 :: prest) (c :: rest) then
      repl ++ replaceAllSub p0 prest repl (rest.drop prest.length)
    else c :: replaceAllSub p0 prest repl rest
termination_by s => s.length
decreasing_by
  · simp only [List.length_drop, List.length_cons]; omega
  · simp only [List.length_cons]; omega

/-- Models `String.prototype.split(",")`: `n` commas yield `n + 1` pieces,
the empty string yields one empty piece. -/
def splitComma : Str → List Str
  | [] => [[]]
  | c :: rest =>
    let r := splitComma rest
    if c = ',' then [] :: r
    else match r with
      | h :: t => (c :: h) :: t
      | [] => [[c]]

/-- JavaScript whitespace characters trimmed by `Number` conversion
(ASCII fragment). -/
def isWsChar (c : Char) : Bool := c = ' ' || c = '\t' || c = '\n' || c = '\r'

/-- Trim leading and trailing whitespace. -/
def trimWs (s : Str) : Str :=
  ((s.dropWhile isWsChar).reverse.dropWhile isWsChar).reverse

/-- Parse a nonempty all-digit string to a natural number. -/
def digitsToNat : Str → Option Nat
  | [] => none
  | l => go l 0
where
  go : Str → Nat → Option Nat
    | [], acc => some acc
    | c :: rest, acc =>
      if c.isDigit then go rest (acc * 10 + (c.toNat - 48)) else none

/-- Models the JavaScript `Number` conversion of a string on the fragment
exercised by the program: whitespace-trimmed, empty string is `0`, optional
single sign followed by decimal digits is that integer, anything else is
`NaN` (`none`).  Fractional, hexadecimal and exponent literals are outside
the modelled fragment. -/
def jsNumber (s : Str) : Option Int :=
  let t := trimWs s
  match t with
  | [] => some 0
  | '+' :: rest => (digitsToNat rest).map Int.ofNat
  | '-' :: rest => (digitsToNat rest).map (fun n => -(n : Int))
  | _ => (digitsToNat t).map Int.ofNat

/-- Hexadecimal digit value of a character, when it is one. -/
def hexVal (c : Char) : Option Nat :=
  if '0' ≤ c ∧ c ≤ '9' then some (c.toNat - 48)
  else if 'a' ≤ c ∧ c ≤ 'f' then some (c.toNat - 87)
  else if 'A' ≤ c ∧ c ≤ 'F' then some (c.toNat - 55)
  else none

/-- Models `decodeURIComponent` on the ASCII fragment: `%XY` hex escapes
below 0x80 decode to the corresponding character, other characters pass
through, and a malformed or non-ASCII escape yields `none` (in JavaScript
the call throws `URIError`, which the caller catches).  Multi-byte UTF-8
escape sequences are outside the modelled fragment. -/
def decodePercent : Str → Option Str
  | [] => some []
  | '%' :: a :: b :: rest =>
    match hexVal a, hexVal b with
    | some ha, some hb =>
      let n := 16 * ha + hb
      if n < 128 then (decodePercent rest).map (fun r => Char.ofNat n :: r)
      else none
    | _, _ => none
  | '%' :: _ => none
  | c :: rest => (decodePercent rest).map (fun r => c :: r)

/-- Uppercase hexadecimal digit character of a value below 16. -/
def hexDigitChar (n : Nat) : Char :=
  if n < 10 then Char.ofNat (48 + n) else Char.ofNat (55 + n)

/-- Characters left untouched by `encodeURIComponent`. -/
def isUnreservedURI (c : Char) : Bool :=
  c.isAlpha || c.isDigit || c = '-' || c = '_' || c = '.' || c = '!' ||
  c = '~' || c = '*' || c = Char.ofNat 39 || c = '(' || c = ')'

/-- Models `encodeURIComponent` on the ASCII fragment: unreserved
characters pass through, others become an uppercase `%XY` escape. -/
def encodeURIComponent (s : Str) : Str :=
  s.flatMap (fun c =>
    if isUnreservedURI c then [c]
    else
      let n := c.toNat % 256
      ['%', hexDigitChar (n / 16), hexDigitChar (n % 16)])

/-! ## JSON-like caller values and value schemas -/

/-- Caller-supplied values flowing through validation: models the JavaScript
values reachable through the JSON-typed tool inputs.  Numbers are modelled
on the integer fragment, `num none` standing for `NaN`. -/
inductive Value where
  | null
  | bool (b : Bool)
  | num (n : Option Int)
  | str (s : Str)
  | arr (vs : List Value)
  | obj (fields : List (Str × Value))

/-- A JavaScript object of caller values. -/
abbrev Obj := List (Str × Value)

/-- Value schemas on the fragment the program feeds to the external `ajv`
validator: the empty schema, the primitive `type` keywords, and arrays with
an optional `items` schema. -/
inductive JSchema where
  | emptyS
  | strS
  | intS
  | numS
  | boolS
  | arrAny
  | arrOf (items : JSchema)
deriving DecidableEq, Repr

/-- The declared `type` keyword of a schema, if any: drives the query
coercion switch in `validateUrlQueryParam`. -/
inductive SType where
  | tStr | tInt | tNum | tBool | tArr
deriving DecidableEq, Repr

/-- The `type` keyword of a schema, `none` for the empty schema. -/
def schemaTypeOf : JSchema → Option SType
  | .emptyS => none
  | .strS => some .tStr
  | .intS => some .tInt
  | .numS => some .tNum
  | .boolS => some .tBool
  | .arrAny => some .tArr
  | .arrOf _ => some .tArr

mutual
/-- Models the external `ajv` validator (default options, so no type
coercion) on the schema fragment above: pure JSON-Schema type validation.
`NaN` (`num none`) has JavaScript type number, so it satisfies
`type: number` but not `type: integer`, matching ajv. -/
def ajvValidate : JSchema → Value → Bool
  | .emptyS, _ => true
  | .strS, .str _ => true
  | .strS, _ => false
  | .boolS, .bool _ => true
  | .boolS, _ => false
  | .intS, .num (some _) => true
  | .intS, _ => false
  | .numS, .num _ => true
  | .numS, _ => false
  | .arrAny, .arr _ => true
  | .arrAny, _ => false
  | .arrOf it, .arr vs => ajvValidateList it vs
  | .arrOf _, _ => false

/-- Item-wise validation of an array value. -/
def ajvValidateList : JSchema → List Value → Bool
  | _, [] => true
  | it, v :: vs => ajvValidate it v && ajvValidateList it vs
end

/-! ## The OpenAPI document model -/

/-- Parameter locations distinguished by the validators (`param.in`). -/
inductive ParamLoc where
  | path | query | header
deriving DecidableEq, Repr

/-- One declared (dereferenced) parameter of an operation: name, location,
required flag, optional value schema and the serialization keywords read by
the query validator. -/
structure Param where
  name : Str
  loc : ParamLoc
  required : Bool
  schema : Option JSchema
  style : Option Str
  explode : Option Bool
deriving DecidableEq, Repr

/-- An entry of an operation parameter list: either a `$ref` (skipped by
every validator) or a concrete parameter. -/
inductive ParamEntry where
  | refP (r : Str)
  | paramP (p : Param)
deriving DecidableEq, Repr

/-- A declared request body: required flag and a map from content type to
the optional schema of that media type. -/
structure RequestBody where
  required : Bool
  content : List (Str × Option JSchema)
deriving DecidableEq, Repr

/-- A request-body declaration: either a `$ref` (skipped) or a concrete
body object. -/
inductive BodyEntry where
  | refB (r : Str)
  | bodyB (b : RequestBody)
deriving DecidableEq, Repr

/-- One operation: its declared parameters and optional request body. -/
structure Operation where
  parameters : List ParamEntry
  requestBody : Option BodyEntry
deriving DecidableEq, Repr

/-- A path item: HTTP method name (lower case in the document) to
operation. -/
abbrev PathItem := List (Str × Operation)

/-- A server variable; only its default value is read by the program. -/
structure ServerVariable where
  default : Str
deriving DecidableEq, Repr

/-- A server object: URL template and server variables (the source field
name `variables` is a reserved word here, so the field is `vars`). -/
structure Server where
  url : Str
  vars : List (Str × ServerVariable)
deriving DecidableEq, Repr

/-- A normalized OpenAPI document: servers and the ordered path-template
map (JavaScript object key order is declaration order for these keys). -/
structure OpenApiDoc where
  servers : List Server
  paths : List (Str × PathItem)
deriving DecidableEq, Repr

/-- The `{}` document returned when a fetched specification cannot be
parsed. -/
def emptyOpenApiDoc : OpenApiDoc := ⟨[], []⟩

/-- The concrete parameters of a list of entries at one location: models
the filter `!("$ref" in param) && param.in === loc` used by all three
parameter validators. -/
def paramsAt (l : ParamLoc) (ps : List ParamEntry) : List Param :=
  ps.filterMap (fun e =>
    match e with
    | .paramP p => if p.loc = l then some p else none
    | .refP _ => none)

/-! ## URL parsing model -/

/-- The parts of a parsed absolute URL: canonical scheme including the
`://` separator, lower-cased host, and everything after the host. -/
structure UrlParts where
  scheme : Str
  host : Str
  afterHost : Str
deriving DecidableEq, Repr

/-- Case-insensitive prefix stripping, used to recognize URL schemes. -/
def stripCI : Str → Str → Option Str
  | [], s => some s
  | _ :: _, [] => none
  | p :: ps, c :: cs => if lowerChar c = p then stripCI ps cs else none

/-- Split off a recognized scheme: `http://` or `https://`,
case-insensitively, returning the canonical lower-case scheme. -/
def schemeSplit (s : Str) : Option (Str × Str) :=
  match stripCI "https://".toList s with
  | some rest => some ("https://".toList, rest)
  | none =>
    match stripCI "http://".toList s with
    | some rest => some ("http://".toList, rest)
    | none => none

/-- A character that ends the host component of a URL. -/
def isHostEnd (c : Char) : Bool := c = '/' || c = '?' || c = '#'

/-- Split a string into the host (up to the first `/`, `?` or `#`) and the
rest. -/
def hostSplit : Str → (Str × Str)
  | [] => ([], [])
  | c :: rest =>
    if isHostEnd c then ([], c :: rest)
    else
      let (h, t) := hostSplit rest
      (c :: h, t)

/-- Models the platform `new URL(s)` constructor on the fragment used by
the program: an absolute `http`/`https` URL of the shape
`scheme://host[/path][?query][#fragment]` without credentials or an
explicit port.  Parsing fails (`none`, the constructor throws) when the
scheme is missing or the host is empty; the host is stored lower-cased as
the platform does. -/
def parseHttpUrl (s : Str) : Option UrlParts :=
  match schemeSplit s with
  | none => none
  | some (scheme, rest) =>
    let (h, after) := hostSplit rest
    if h = [] then none else some ⟨scheme, lowerStr h, after⟩

/-- Models `URL.prototype.toString` after a hostname assignment, on the same
fragment: scheme, host, then the remainder, with the pathname normalized to
start with a slash. -/
def urlToString (scheme host afterHost : Str) : Str :=
  scheme ++ host ++
    (match afterHost with
     | '/' :: rest => '/' :: rest
     | other => '/' :: other)

/-- The `pathname` of a parsed URL: the part of `afterHost` before any
query or fragment, normalized to `/` when empty. -/
def pathnameOf (afterHost : Str) : Str :=
  let p := afterHost.takeWhile (fun c => ¬ (c = '?' || c = '#'))
  if p = [] then ['/'] else p

/-- Models the manual fallback regex `https?:\/\/[^/]+(.*)$` of
`parseApiPathFromUrl`: at the leftmost position where a scheme occurs and
is followed by at least one non-slash character, the captured group is
everything from the first following slash (possibly empty). -/
def fallbackPathScan : Str → Option Str
  | [] => none
  | c :: rest =>
    match schemeSplit (c :: rest) with
    | some (_, after) =>
      let h := after.takeWhile (fun ch => ¬ ch = '/')
      if h = [] then fallbackPathScan rest
      else some (after.drop h.length)
    | none => fallbackPathScan rest

/-- Embeds `parseApiPathFromUrl` (validation-helper.ts): URL-parse the
input and return the percent-decoded pathname; if parsing or decoding
throws, fall back to the manual regex extraction; if that fails too, return
the empty string. -/
def parseApiPathFromUrl (inputUrl : Str) : Str :=
  match parseHttpUrl inputUrl with
  | some u =>
    match decodePercent (pathnameOf u.afterHost) with
    | some p => p
    | none =>
      match fallbackPathScan inputUrl with
      | some p => p
      | none => []
  | none =>
    match fallbackPathScan inputUrl with
    | some p => p
    | none => []

/-! ## Path-template matching -/

/-- One token of a compiled path template: a literal character or the
`[^/]+` pattern substituted for a `{name}` placeholder. -/
inductive Tok where
  | lit (c : Char)
  | hole
deriving DecidableEq, Repr

/-- The scanning loop of the placeholder substitution
`specPath.replace(/\x7b[^}]+\x7d/g, "[^/]+")`.  The state is `none` while
outside a placeholder candidate and `some acc` after an opening brace,
`acc` holding the body characters read so far (in reverse).  At a closing
brace a nonempty body becomes one `hole` — the regex matches exactly
`\x7b`, then `[^}]+` running to the first closing brace (the class admits
further opening braces), then `\x7d`.  An empty body or a missing closing
brace leaves every character literal, as the regex finds no match there,
and no match can start at a closing brace or inside a replaced
placeholder. -/
def ptGo : Option Str → Str → List Tok
  | none, [] => []
  | none, c :: rest =>
    if c = '{' then ptGo (some []) rest else .lit c :: ptGo none rest
  | some acc, [] => .lit '{' :: acc.reverse.map Tok.lit
  | some acc, c :: rest =>
    if c = '}' then
      match acc with
      | [] => .lit '{' :: .lit '}' :: ptGo none rest
      | _ :: _ => .hole :: ptGo none rest
    else ptGo (some (c :: acc)) rest

/-- Embeds `specPath.replace(/\x7b[^}]+\x7d/g, "[^/]+")`: compile a path
template to tokens, each placeholder becoming a single `hole`. -/
def parseTemplate (s : Str) : List Tok := ptGo none s

/-- Match a token sequence against an entire string, a `hole` consuming one
or more non-slash characters (the `[^/]+` pattern): after one non-slash
character the hole either stops or extends.  Existence of a match is what
the regex `test` decides, so backtracking order is irrelevant. -/
def matchToks : List Tok → Str → Bool
  | [], [] => true
  | [], _ :: _ => false
  | .lit _ :: _, [] => false
  | .lit c :: ts, d :: ds => if c = d then matchToks ts ds else false
  | .hole :: _, [] => false
  | .hole :: ts, d :: ds =>
    if d = '/' then false
    else matchToks ts ds || matchToks (.hole :: ts) ds

/-- Models `regex.test` for a pattern anchored only at the end of the
string (the compiled templates end with `$` and have no start anchor): some
suffix of the string matches the whole token sequence. -/
def testEnd (toks : List Tok) : Str → Bool
  | [] => matchToks toks []
  | c :: cs => matchToks toks (c :: cs) || testEnd toks cs

/-! ## Path resolution (validatePath) -/

/-- Embeds the result object of `validatePath`. -/
structure PathRes where
  pathValidateRes : Bool
  apiPath : Str
  specPath : Str
  specPathItem : Option PathItem
deriving DecidableEq, Repr

/-- The first server object of a document, `{ url: "" }` when there is
none (`openApiDoc.servers?.[0] || { url: "" }`). -/
def serverObjOf (doc : OpenApiDoc) : Server :=
  doc.servers.head?.getD ⟨[], []⟩

/-- The declared base path of a document: the default of the server
variable named `basePath`, the empty string when absent.  The source loop
keeps the last matching entry; object keys are unique, so a fold keeping
the last match is faithful. -/
def basePathOf (doc : OpenApiDoc) : Str :=
  (serverObjOf doc).vars.foldl
    (fun acc kv => if kv.1 = "basePath".toList then kv.2.default else acc) []

/-- The first-match loop over the declared path templates: the first
document-declared template whose compiled, end-anchored pattern matches the
request path wins. -/
def findSpecPath (paths : List (Str × PathItem)) (apiPath : Str) :
    Option (Str × PathItem) :=
  match paths with
  | [] => none
  | (sp, it) :: rest =>
    if testEnd (parseTemplate sp) apiPath then some (sp, it)
    else findSpecPath rest apiPath

/-- Embeds `validatePath` (validation-helper.ts): extract the request path
from the URL, gate on the declared base path when one exists, then return
the first declared template matching the request path. -/
def validatePath (openApiDoc : OpenApiDoc) (inputUrl : Str) : PathRes :=
  let apiPath := parseApiPathFromUrl inputUrl
  if apiPath = [] then ⟨false, [], [], none⟩
  else
    let basePath := basePathOf openApiDoc
    if basePath ≠ [] ∧ ¬ testEnd (parseTemplate basePath) apiPath then
      ⟨false, apiPath, [], none⟩
    else
      match findSpecPath openApiDoc.paths apiPath with
      | some (sp, it) => ⟨true, apiPath, sp, some it⟩
      | none => ⟨false, apiPath, [], none⟩

/-! ## The parameter validators -/

/-- `value === undefined || value === null` on an object lookup. -/
def isUndefOrNull : Option Value → Bool
  | none => true
  | some .null => true
  | some _ => false

/-- `value === undefined || value === null || value === ""` on an object
lookup. -/
def isUndefNullOrEmpty : Option Value → Bool
  | none => true
  | some .null => true
  | some (.str []) => true
  | some _ => false

/-- The message `Missing required path parameter: <name>`. -/
def missingPathMsg (n : Str) : Str :=
  "Missing required path parameter: ".toList ++ n

/-- The message `Missing required path parameters: <names>` produced by the
recomputed required-parameter check. -/
def missingPathsMsg (ns : Str) : Str :=
  "Missing required path parameters: ".toList ++ ns

/-- The message `Unknown path parameters: <names>`. -/
def unknownPathMsg (ns : Str) : Str :=
  "Unknown path parameters: ".toList ++ ns

/-- Stand-in for `ajv.errorsText(validate.errors)`: the diagnostic text of
the external validator is not modelled, only its presence. -/
def ajvText : Str := "schema validation failed".toList

/-- The message `Invalid path parameter <name>: <ajv text>`. -/
def invalidPathMsg (n : Str) : Str :=
  "Invalid path parameter ".toList ++ n ++ ": ".toList ++ ajvText

/-- The message `Missing required query parameter: <name>`. -/
def missingQueryMsg (n : Str) : Str :=
  "Missing required query parameter: ".toList ++ n

/-- The message `Invalid query parameter <name>: <ajv text>`. -/
def invalidQueryMsg (n : Str) : Str :=
  "Invalid query parameter ".toList ++ n ++ ": ".toList ++ ajvText

/-- The message `Missing required header parameter: <name>`. -/
def missingHeaderMsg (n : Str) : Str :=
  "Missing required header parameter: ".toList ++ n

/-- The message `Invalid header parameter <name>: <ajv text>`. -/
def invalidHeaderMsg (n : Str) : Str :=
  "Invalid header parameter ".toList ++ n ++ ": ".toList ++ ajvText

/-- The message `Missing required request body`. -/
def missingBodyMsg : Str := "Missing required request body".toList

/-- The message `Invalid request body: <ajv text>`. -/
def invalidBodyMsg : Str :=
  "Invalid request body: ".toList ++ ajvText

/-- Embeds `validateUrlPathParam` (validation-helper.ts), returning the
messages it appends to the shared error array.  When no path-variable map
is supplied at all, the whole body is skipped. -/
def validateUrlPathParam (urlVariables : Option Obj)
    (parameters : List ParamEntry) : List Str :=
  match urlVariables with
  | none => []
  | some uv =>
    let pathParams := paramsAt .path parameters
    let loopErrs := pathParams.flatMap (fun p =>
      let value := assocFind uv p.name
      if p.required && isUndefOrNull value then [missingPathMsg p.name]
      else
        match value, p.schema with
        | some v, some sch =>
          if ajvValidate sch v then [] else [invalidPathMsg p.name]
        | _, _ => [])
    let definedPathParams := pathParams.map (·.name)
    let extraParams :=
      (uv.map (·.1)).filter (fun k => ¬ strMem k definedPathParams)
    let extraErrs :=
      if extraParams ≠ [] then [unknownPathMsg (joinComma extraParams)] else []
    let requiredPathParams :=
      ((paramsAt .path parameters).filter (·.required)).map (·.name)
    let providedPathParams := uv.map (·.1)
    let missingPathParams :=
      requiredPathParams.filter (fun n => ¬ strMem n providedPathParams)
    let missingErrs :=
      if missingPathParams ≠ [] then
        [missingPathsMsg (joinComma missingPathParams)]
      else []
    loopErrs ++ extraErrs ++ missingErrs

/-- The query-coercion step of `validateUrlQueryParam`: a string caller
value is coerced toward the declared primitive type of the parameter
schema before validation. -/
def coerceQueryValue (p : Param) (sch : JSchema) (v : Value) : Value :=
  match v with
  | .str s =>
    match schemaTypeOf sch with
    | some .tInt => .num (jsNumber s)
    | some .tNum => .num (jsNumber s)
    | some .tBool => .bool (lowerStr s = "true".toList)
    | some .tArr =>
      if p.style = some "form".toList ∧ p.explode ≠ some true then
        .arr ((splitComma s).map .str)
      else v
    | _ => v
  | _ => v

/-- Embeds `validateUrlQueryParam` (validation-helper.ts), returning the
messages it appends.  When no query map is supplied at all, the whole body
is skipped. -/
def validateUrlQueryParam (urlQueryParams : Option Obj)
    (parameters : List ParamEntry) : List Str :=
  match urlQueryParams with
  | none => []
  | some uq =>
    (paramsAt .query parameters).flatMap (fun p =>
      let value := assocFind uq p.name
      if p.required && isUndefNullOrEmpty value then [missingQueryMsg p.name]
      else
        match value, p.schema with
        | some v, some sch =>
          if ajvValidate sch (coerceQueryValue p sch v) then []
          else [invalidQueryMsg p.name]
        | _, _ => [])

/-- A header map: JavaScript object from header name to string value. -/
abbrev HeaderMap := List (Str × Str)

/-- The header lookup `headers[lowerName] || headers[name]`: the
lower-cased name wins when its value is truthy (a nonempty string). -/
def headerLookup (hs : HeaderMap) (name : Str) : Option Str :=
  match assocFind hs (lowerStr name) with
  | some v => if v ≠ [] then some v else assocFind hs name
  | none => assocFind hs name

/-- Embeds `validateUrlHeaders` (validation-helper.ts), returning the
messages it appends.  When no header map is supplied at all, the whole body
is skipped.  Header values are strings, so the `null` arm of the
missing-value test is unreachable. -/
def validateUrlHeaders (headers : Option HeaderMap)
    (parameters : List ParamEntry) : List Str :=
  match headers with
  | none => []
  | some hs =>
    (paramsAt .header parameters).flatMap (fun p =>
      let value := headerLookup hs p.name
      if p.required &&
          (match value with | none => true | some [] => true | some _ => false) then
        [missingHeaderMsg p.name]
      else
        match value, p.schema with
        | some v, some sch =>
          if ajvValidate sch (.str v) then [] else [invalidHeaderMsg p.name]
        | _, _ => [])

/-- The first of the three preferred content types whose media type
declares a schema (`application/json`, then form-urlencoded, then
multipart). -/
def findContentSchema (content : List (Str × Option JSchema)) :
    List Str → Option JSchema
  | [] => none
  | ct :: rest =>
    match assocFind content ct with
    | some (some sch) => some sch
    | _ => findContentSchema content rest

/-- The fixed content-type preference order of the body validator. -/
def bodyContentTypes : List Str :=
  ["application/json".toList, "application/x-www-form-urlencoded".toList,
   "multipart/form-data".toList]

/-- Embeds `validateUrlRequestBody` (validation-helper.ts), returning the
messages it appends.  `$ref` bodies are skipped; a required body must be a
supplied, nonempty object; a supplied nonempty body is checked only when a
preferred content type declares a schema. -/
def validateUrlRequestBody (inputBody : Option Obj)
    (operationBody : Option BodyEntry) : List Str :=
  match operationBody with
  | some (.bodyB rb) =>
    if rb.required &&
        (match inputBody with | none => true | some [] => true | some _ => false) then
      [missingBodyMsg]
    else
      match inputBody with
      | some [] => []
      | some (f :: fs) =>
        match findContentSchema rb.content bodyContentTypes with
        | some sch =>
          if ajvValidate sch (.obj (f :: fs)) then [] else [invalidBodyMsg]
        | none => []
      | none => []
  | _ => []

/-! ## validateRequestParameters -/

/-- The caller input bucket record of `validateRequestParameters`. -/
structure ValidationInput where
  urlVariables : Option Obj
  urlQueryParams : Option Obj
  headers : Option HeaderMap
  requestBody : Option Obj

/-- The result record `{ isValid, errors }`. -/
structure ValidationResult where
  isValid : Bool
  errors : List Str
deriving DecidableEq, Repr

/-- The message pushed when the request path resolves to no declared
template. -/
def pathNotFoundMsg (apiPath : Str) : Str :=
  "API path ".toList ++ apiPath ++
    " is not valid or not found in OpenAPI specification".toList

/-- The message pushed when the matched template declares no operation for
the request method. -/
def methodNotFoundMsg (method specPath : Str) : Str :=
  "Method ".toList ++ method ++ " not found for path ".toList ++ specPath ++
    " in OpenAPI specification".toList

/-- Embeds `validateRequestParameters` (validation-helper.ts): resolve the
path and method as a hard precondition, then accumulate the messages of the
four location validators, `isValid` holding exactly when no message was
produced. -/
def validateRequestParameters (url : Str) (openApiDoc : OpenApiDoc)
    (method : Str) (input : ValidationInput) : ValidationResult :=
  match validatePath openApiDoc url with
  | ⟨true, _, specPath, some specPathItem⟩ =>
    match assocFind specPathItem (lowerStr method) with
    | some operation =>
      let errors :=
        validateUrlPathParam input.urlVariables operation.parameters
        ++ validateUrlQueryParam input.urlQueryParams operation.parameters
        ++ validateUrlHeaders input.headers operation.parameters
        ++ validateUrlRequestBody input.requestBody operation.requestBody
      ⟨errors.isEmpty, errors⟩
    | none => ⟨false, [methodNotFoundMsg method specPath]⟩
  | ⟨_, apiPath, _, _⟩ => ⟨false, [pathNotFoundMsg apiPath]⟩

/-! ## Environment constants and HTTP helpers -/

/-- The two API environments (constants.ts `ApiEnvironment`). -/
inductive ApiEnvironment where
  | sandbox | production
deriving DecidableEq, Repr

/-- The `DOMAIN_NAME` table: the fixed domain per environment. -/
def DOMAIN_NAME : ApiEnvironment → Str
  | .sandbox => "api.sandbox.ebay.com".toList
  | .production => "api.ebay.com".toList

/-- The entries of the `DOMAIN_NAME` object in declaration order, as
iterated by `Object.entries`. -/
def domainEntries : List (ApiEnvironment × Str) :=
  [(.sandbox, DOMAIN_NAME .sandbox), (.production, DOMAIN_NAME .production)]

/-- The fixed identifying user-agent string. -/
def userAgentVal : Str := "EBAY-API-MCP-Tool/1.0".toList

/-- The bearer authorization header value built from the access token. -/
def bearerVal (token : Str) : Str := "Bearer ".toList ++ token

/-- The default JSON content type. -/
def defaultContentType : Str := "application/json".toList

/-- The `Host` header name. -/
def hostKey : Str := "Host".toList

/-- The `User-Agent` header name. -/
def userAgentKey : Str := "User-Agent".toList

/-- The `Authorization` header name. -/
def authKey : Str := "Authorization".toList

/-- The `Content-Type` header name. -/
def contentTypeKey : Str := "Content-Type".toList

/-- JavaScript object property assignment `m[k] = v`: an existing key keeps
its position with the value updated, a new key is appended. -/
def jsSet : HeaderMap → Str → Str → HeaderMap
  | [], k, v => [(k, v)]
  | (k', v') :: rest, k, v =>
    if k' = k then (k', v) :: rest else (k', v') :: jsSet rest k v

/-- The copy loop of `buildHeadersFromInput`: each entry of the input
record (header name to string array) is copied with its first element.  An
empty array yields a property holding `undefined`, which every later read
treats exactly like an absent property, so it is modelled as no entry. -/
def copyHeaders (input : List (Str × List Str)) : HeaderMap :=
  input.foldl
    (fun m kv =>
      match kv.2.head? with
      | some v => jsSet m kv.1 v
      | none => m)
    []

/-- Embeds `fillDefaultHeaderInfo` (http-helper.ts): set `Host` (by
environment or always production, per `needSetHostByEnv`), the fixed
`User-Agent`, the bearer `Authorization`, and default `Content-Type` to
JSON when the present value is falsy.  The module globals
`USER_ENVIRONMENT` and `USER_TOKEN` are explicit parameters here. -/
def fillDefaultHeaderInfo (headers : HeaderMap) (needSetHostByEnv : Bool)
    (env : ApiEnvironment) (token : Str) : HeaderMap :=
  let m1 := jsSet headers hostKey
    (if needSetHostByEnv then DOMAIN_NAME env else DOMAIN_NAME .production)
  let m2 := jsSet m1 userAgentKey userAgentVal
  let m3 := jsSet m2 authKey (bearerVal token)
  let ct :=
    match assocFind m3 contentTypeKey with
    | some v => if v ≠ [] then v else defaultContentType
    | none => defaultContentType
  jsSet m3 contentTypeKey ct

/-- Embeds `buildHeadersFromInput` (http-helper.ts): copy the caller
header record, then fill in the default headers. -/
def buildHeadersFromInput (inputHeaders : Option (List (Str × List Str)))
    (needSetHostByEnv : Bool) (env : ApiEnvironment) (token : Str) :
    HeaderMap :=
  let headers :=
    match inputHeaders with
    | some ih => copyHeaders ih
    | none => []
  fillDefaultHeaderInfo headers needSetHostByEnv env token

mutual
/-- Models the JavaScript `String(value)` conversion on the fragment used
by `buildFinalUrl`: strings pass through, numbers and booleans print,
arrays join with commas, objects print as `[object Object]`. -/
def jsStringOf : Value → Str
  | .str s => s
  | .bool true => "true".toList
  | .bool false => "false".toList
  | .null => "null".toList
  | .num (some n) => (toString n).toList
  | .num none => "NaN".toList
  | .arr vs => jsStringOfList vs
  | .obj _ => "[object Object]".toList

/-- Comma join of array elements for `String`. -/
def jsStringOfList : List Value → Str
  | [] => []
  | [v] => jsStringOf v
  | v :: w :: rest => jsStringOf v ++ ',' :: jsStringOfList (w :: rest)
end

/-- Embeds `buildFinalUrl` (http-helper.ts): for each path variable,
replace every occurrence of `%7B<key>%7D` in the URL with the
URL-encoded string of its value. -/
def buildFinalUrl (url : Str) (urlVariables : Option Obj) : Str :=
  match urlVariables with
  | none => url
  | some uv =>
    uv.foldl
      (fun u kv =>
        replaceAllSub '%' ("7B".toList ++ kv.1 ++ "%7D".toList)
          (encodeURIComponent (jsStringOf kv.2)) u)
      url

/-- The textual fallback of `replaceDomainNameByEnvironment`: when URL
parsing throws, the first other-environment domain found as a substring is
replaced (first occurrence only, a plain-string `replace`). -/
def fallbackDomainReplace (env : ApiEnvironment) (url : Str) : Str :=
  goDomainEntries domainEntries
where
  goDomainEntries : List (ApiEnvironment × Str) → Str
    | [] => url
    | (e, d) :: rest =>
      if e ≠ env ∧ containsSub d url then
        replaceFirst d (DOMAIN_NAME env) url
      else goDomainEntries rest

/-- Embeds `replaceDomainNameByEnvironment` (http-helper.ts): parse the
URL; when the hostname differs from the configured environment domain,
rewrite the hostname and serialize; when it already matches, return the
input unchanged; when parsing throws, fall back to a textual substring
replacement over the known domains. -/
def replaceDomainNameByEnvironment (env : ApiEnvironment) (url : Str) : Str :=
  match parseHttpUrl url with
  | some u =>
    if u.host ≠ DOMAIN_NAME env then
      urlToString u.scheme (DOMAIN_NAME env) u.afterHost
    else url
  | none => fallbackDomainReplace env url

/-! ## On-demand specification loading and the invoke pipeline -/

/-- Embeds the parsing core of `parseOpenApiDoc` (openapi-helper.ts).  The
network fetch is modelled by passing the fetched body as `docString`; the
external `JSON.parse` and `yaml.load` parsers are abstracted as function
arguments returning `none` where the library call would throw.  JSON
parsing is attempted first; the YAML parser runs only on JSON failure; when
both fail the function returns the empty document instead of throwing. -/
def parseOpenApiDoc (jsonParse yamlParse : Str → Option OpenApiDoc)
    (docString : Str) : OpenApiDoc :=
  match jsonParse docString with
  | some d => d
  | none =>
    match yamlParse docString with
    | some d => d
    | none => emptyOpenApiDoc

/-- The caller input record of the generic `invokeAPI` tool
(openapi-service.ts `getInvokeApiSchema`): the specification title and
operation id only drive the remote fetch, which is modelled by passing the
fetched document separately. -/
structure InvokeInput where
  url : Str
  method : Str
  headers : Option (List (Str × List Str))
  urlVariables : Option Obj
  urlQueryParams : Option Obj
  requestBody : Option Obj

/-- The outbound request assembled by the invoke handler. -/
structure RequestDescriptor where
  url : Str
  method : Str
  headers : HeaderMap
  params : Option Obj
  data : Option Obj

/-- The observable outcome of one run of the invoke handler: either a
structured validation failure (no request is issued) or exactly one
outbound request. -/
inductive InvokeOutcome where
  | validationFailure (errors : List Str)
  | sendRequest (rd : RequestDescriptor)

/-- The error list of a validation-failure outcome, if the outcome is
one. -/
def InvokeOutcome.failureErrors : InvokeOutcome → Option (List Str)
  | .validationFailure es => some es
  | .sendRequest _ => none

/-- The validation step of the invoke handler, exactly as the handler
performs it: headers are built first (the source omits the
`needSetHostByEnv` argument, so it is `undefined`, hence falsy), the URL is
rewritten to the configured environment, and the built header map is what
validation sees. -/
def invokeValidation (env : ApiEnvironment) (token : Str)
    (openApiDoc : OpenApiDoc) (input : InvokeInput) : ValidationResult :=
  let headers := buildHeadersFromInput input.headers false env token
  let replacedDomainUrl := replaceDomainNameByEnvironment env input.url
  validateRequestParameters replacedDomainUrl openApiDoc input.method
    ⟨input.urlVariables, input.urlQueryParams, some headers, input.requestBody⟩

/-- Embeds the decision logic of the `invokeAPI` tool handler
(openapi-service.ts `registerInvokeApiTool`): when validation fails the
handler returns the structured failure carrying the whole violation list
and issues no request; otherwise it issues exactly one request assembled
from the validated input. -/
def invokeApiDecision (env : ApiEnvironment) (token : Str)
    (openApiDoc : OpenApiDoc) (input : InvokeInput) : InvokeOutcome :=
  let v := invokeValidation env token openApiDoc input
  if v.isValid then
    .sendRequest
      ⟨buildFinalUrl (replaceDomainNameByEnvironment env input.url)
          input.urlVariables,
        input.method,
        buildHeadersFromInput input.headers false env token,
        input.urlQueryParams,
        input.requestBody⟩
  else .validationFailure v.errors

/-! ## Concrete documents and inputs used by the witnesses -/

/-- An operation with no parameters and no body. -/
def opEmpty : Operation := ⟨[], none⟩

/-- A path item exposing only GET with the empty operation. -/
def itemEmpty : PathItem := [("get".toList, opEmpty)]

/-- A document declaring, in order, the templates `/{a}/{b}` and
`/c/{d}`. -/
def docTwoTemplates : OpenApiDoc :=
  ⟨[], [("/{a}/{b}".toList, itemEmpty), ("/c/{d}".toList, itemEmpty)]⟩

/-- A document whose single GET operation requires the path parameter
`item_id`. -/
def docItem : OpenApiDoc :=
  ⟨[],
   [("/item/{item_id}".toList,
     [("get".toList,
       ⟨[.paramP ⟨"item_id".toList, .path, true, some .strS, none, none⟩],
        none⟩)])]⟩

/-- An operation declaring one required parameter in each of the three
locations plus an optional JSON body with a boolean schema. -/
def opMulti : Operation :=
  ⟨[.paramP ⟨"id".toList, .path, true, some .strS, none, none⟩,
    .paramP ⟨"q".toList, .query, true, some .strS, none, none⟩,
    .paramP ⟨"x-tok".toList, .header, true, some .strS, none, none⟩],
   some (.bodyB ⟨false, [("application/json".toList, some .boolS)]⟩)⟩

/-- A document exposing `opMulti` at `/ord/{id}` for GET. -/
def docMulti : OpenApiDoc :=
  ⟨[], [("/ord/{id}".toList, [("get".toList, opMulti)])]⟩

/-- A declared query parameter named `ids` with the given schema and
serialization keywords, required. -/
def queryParamIds (sch : JSchema) (st : Option Str) (ex : Option Bool) :
    ParamEntry :=
  .paramP ⟨"ids".toList, .query, true, some sch, st, ex⟩

/-! ## Shared lemmas -/

/-- Setting a key makes it readable. -/
theorem assocFind_jsSet_self (m : HeaderMap) (k v : Str) :
    assocFind (jsSet m k v) k = some v := by
  induction m with
  | nil => simp [jsSet, assocFind]
  | cons kv rest ih =>
    by_cases h : kv.1 = k
    · cases kv; simp_all [jsSet, assocFind]
    · cases kv; simp_all [jsSet, assocFind]

/-- Setting a key leaves every other key unchanged. -/
theorem assocFind_jsSet_ne (m : HeaderMap) (k v k' : Str) (h : k ≠ k') :
    assocFind (jsSet m k v) k' = assocFind m k' := by
  induction m with
  | nil => simp [jsSet, assocFind, h]
  | cons kv rest ih =>
    by_cases hk : kv.1 = k
    · cases kv
      simp only at hk
      subst hk
      simp [jsSet, assocFind, h]
    · cases kv
      simp only at hk
      simp [jsSet, hk, assocFind, ih]

/-- A full token match is in particular an end-anchored match. -/
theorem matchToks_imp_testEnd (toks : List Tok) (p : Str)
    (h : matchToks toks p = true) : testEnd toks p = true := by
  cases p with
  | nil => simpa [testEnd] using h
  | cons c cs => simp [testEnd, h]

/-- The first-match loop, applied to a list containing a matching entry,
returns a match at or before that entry; when everything before fails,
it returns exactly that entry. -/
theorem findSpecPath_front (p : Str) :
    ∀ (pre : List (Str × PathItem)) (T : Str) (it : PathItem)
      (post : List (Str × PathItem)),
      testEnd (parseTemplate T) p = true →
      ∃ pre2 sp it2 post2,
        findSpecPath (pre ++ (T, it) :: post) p = some (sp, it2)
        ∧ pre ++ (T, it) :: post = pre2 ++ (sp, it2) :: post2
        ∧ pre2.length ≤ pre.length
        ∧ ((∀ e ∈ pre, testEnd (parseTemplate e.1) p = false) → sp = T) := by
  intro pre
  induction pre with
  | nil =>
    intro T it post hT
    refine ⟨[], T, it, post, ?_, rfl, le_rfl, fun _ => rfl⟩
    simp [findSpecPath, hT]
  | cons e0 pre ih =>
    intro T it post hT
    by_cases h0 : testEnd (parseTemplate e0.1) p = true
    · refine ⟨[], e0.1, e0.2, pre ++ (T, it) :: post, ?_, by simp, by simp, ?_⟩
      · simp [findSpecPath, h0]
      · intro hall
        exact absurd h0 (by simp [hall e0 (List.mem_cons_self e0 _)])
    · obtain ⟨pre2, sp, it2, post2, h1, h2, h3, h4⟩ := ih T it post hT
      refine ⟨e0 :: pre2, sp, it2, post2, ?_, ?_, ?_, ?_⟩
      · simpa [findSpecPath, h0] using h1
      · simp [h2]
      · simpa using Nat.succ_le_succ h3
      · intro hall
        exact h4 (fun e he => hall e (List.mem_cons_of_mem _ he))

/-- A concrete parameter of the right location is kept by the location
filter. -/
theorem mem_paramsAt {ps : List ParamEntry} {pr : Param} {l : ParamLoc}
    (hp : ParamEntry.paramP pr ∈ ps) (hl : pr.loc = l) :
    pr ∈ paramsAt l ps :=
  List.mem_filterMap.mpr ⟨.paramP pr, hp, by simp [hl]⟩

/-! ## Claim theorems -/

/-- Claim C4, counterexample: the query string `3,4,5` against a declared
form-style, non-exploded array-of-integer schema does NOT validate as the
array `[3,4,5]` — the split produces an array of strings, which the
validator rejects, so a violation is emitted where the claim requires
none. -/
theorem queryArrayCoercion_cex :
    validateUrlQueryParam (some [("ids".toList, .str "3,4,5".toList)])
        [queryParamIds (.arrOf .intS) (some "form".toList) (some false)]
      = [invalidQueryMsg "ids".toList]
    ∧ invalidQueryMsg "ids".toList ≠ [] := by
  constructor
  · decide
  · decide

/-- Claim C4 (amended): query coercion before schema validation behaves as
follows — the string `true` coerces to the boolean `true` and validates
against a boolean schema; the string `3,4,5` with declared form-style,
non-exploded serialization splits on commas into an array of strings,
which fails an array-of-integer schema but validates against an
array-of-string schema; the string `abc` converts to `NaN` and fails an
integer schema. -/
theorem queryCoercion_amended :
    validateUrlQueryParam (some [("ids".toList, .str "true".toList)])
        [queryParamIds .boolS none none] = []
    ∧ validateUrlQueryParam (some [("ids".toList, .str "3,4,5".toList)])
        [queryParamIds (.arrOf .intS) (some "form".toList) (some false)]
      = [invalidQueryMsg "ids".toList]
    ∧ validateUrlQueryParam (some [("ids".toList, .str "3,4,5".toList)])
        [queryParamIds (.arrOf .strS) (some "form".toList) (some false)] = []
    ∧ validateUrlQueryParam (some [("ids".toList, .str "abc".toList)])
        [queryParamIds .intS none none]
      = [invalidQueryMsg "ids".toList] := by
  refine ⟨?_, ?_, ?_, ?_⟩ <;> decide

/-- Claim C8: when the fetched specification body is rejected by both the
JSON parser and the YAML-family parser, the on-demand loader returns the
explicit empty document instead of throwing; the JSON parser is consulted
first, the YAML parser only on JSON failure. -/
theorem parseOpenApiDoc_fallback :
    ∀ (jsonParse yamlParse : Str → Option OpenApiDoc) (s : Str),
      (jsonParse s = none → yamlParse s = none →
        parseOpenApiDoc jsonParse yamlParse s = emptyOpenApiDoc)
      ∧ (∀ d, jsonParse s = some d → parseOpenApiDoc jsonParse yamlParse s = d)
      ∧ (∀ d, jsonParse s = none → yamlParse s = some d →
          parseOpenApiDoc jsonParse yamlParse s = d) := by
  intro jp yp s
  refine ⟨?_, ?_, ?_⟩
  · intro hj hy; simp [parseOpenApiDoc, hj, hy]
  · intro d hj; simp [parseOpenApiDoc, hj]
  · intro d hj hy; simp [parseOpenApiDoc, hj, hy]

/-- Witness for C8 at a concrete unparsable body. -/
theorem parseOpenApiDoc_fallback_w :
    parseOpenApiDoc (fun _ => none) (fun _ => none) "bad doc".toList
      = emptyOpenApiDoc :=
  (parseOpenApiDoc_fallback (fun _ => none) (fun _ => none)
    "bad doc".toList).1 rfl rfl

/-- Claim C9: a location bucket that is absent altogether (`undefined`) is
not checked at all — each location validator yields no violation for any
declared parameters — and a concrete invocation of
`validateRequestParameters` against a document requiring one parameter in
each location, with every bucket omitted, validates as `isValid: true`. -/
theorem absentBuckets_skip_validation :
    (∀ ps, validateUrlPathParam none ps = [])
    ∧ (∀ ps, validateUrlQueryParam none ps = [])
    ∧ (∀ ps, validateUrlHeaders none ps = [])
    ∧ validateRequestParameters "https://api.ebay.com/ord/7".toList docMulti
        "GET".toList ⟨none, none, none, none⟩ = ⟨true, []⟩ :=
  ⟨fun _ => rfl, fun _ => rfl, fun _ => rfl, by decide⟩

/-- Witness for C9 instantiating the universal parts at the multi-location
operation. -/
theorem absentBuckets_skip_validation_w :
    validateUrlPathParam none opMulti.parameters = []
    ∧ validateUrlQueryParam none opMulti.parameters = []
    ∧ validateUrlHeaders none opMulti.parameters = [] :=
  ⟨absentBuckets_skip_validation.1 opMulti.parameters,
   absentBuckets_skip_validation.2.1 opMulti.parameters,
   absentBuckets_skip_validation.2.2.1 opMulti.parameters⟩

/-- Claim C6: the invoke handler issues no request when validation fails —
the outcome is the structured failure carrying the whole violation list —
and an outbound request exists only when validation passed. -/
theorem invokeApiDecision_gates_on_validation :
    ∀ (env : ApiEnvironment) (token : Str) (doc : OpenApiDoc)
      (input : InvokeInput),
      ((invokeValidation env token doc input).isValid = false →
        invokeApiDecision env token doc input =
          .validationFailure (invokeValidation env token doc input).errors)
      ∧ (∀ rd, invokeApiDecision env token doc input = .sendRequest rd →
          (invokeValidation env token doc input).isValid = true) := by
  intro env token doc input
  constructor
  · intro h
    simp [invokeApiDecision, h]
  · intro rd h
    by_cases hv : (invokeValidation env token doc input).isValid = true
    · exact hv
    · rw [invokeApiDecision] at h
      simp only [Bool.not_eq_true] at hv
      simp [hv] at h

/-- Witness for C6: against the empty document every URL fails path
resolution, the outcome is the structured failure with the resolution
violation, and it is not a request. -/
theorem invokeApiDecision_gates_on_validation_w :
    invokeApiDecision .production "tok".toList emptyOpenApiDoc
        ⟨"https://api.ebay.com/x".toList, "GET".toList, none, none, none, none⟩
      = .validationFailure [pathNotFoundMsg "/x".toList] :=
  ((invokeApiDecision_gates_on_validation .production "tok".toList
      emptyOpenApiDoc
      ⟨"https://api.ebay.com/x".toList, "GET".toList, none, none, none,
        none⟩).1 (by decide)).trans
    (congrArg InvokeOutcome.validationFailure (by decide))

/-- Claim C1: when path and method resolve, a declared required path
parameter whose name is absent from the caller-supplied path-variable map
makes validation fail, and the error list contains the message naming that
exact parameter. -/
theorem missingRequiredPathParam_reported :
    ∀ (url : Str) (doc : OpenApiDoc) (method : Str) (input : ValidationInput)
      (ap sp : Str) (item : PathItem) (op : Operation) (pr : Param) (uv : Obj),
      validatePath doc url = ⟨true, ap, sp, some item⟩ →
      assocFind item (lowerStr method) = some op →
      ParamEntry.paramP pr ∈ op.parameters →
      pr.loc = .path →
      pr.required = true →
      input.urlVariables = some uv →
      assocFind uv pr.name = none →
      (validateRequestParameters url doc method input).isValid = false
      ∧ missingPathMsg pr.name ∈
          (validateRequestParameters url doc method input).errors := by
  intro url doc method input ap sp item op pr uv hvp hop hmem hloc hreq huv hlook
  have hmsg : missingPathMsg pr.name ∈
      validateUrlPathParam input.urlVariables op.parameters := by
    rw [huv]
    unfold validateUrlPathParam
    apply List.mem_append_left
    apply List.mem_append_left
    apply List.mem_flatMap.mpr
    refine ⟨pr, mem_paramsAt hmem hloc, ?_⟩
    simp [hlook, hreq, isUndefOrNull]
  have herrs : (validateRequestParameters url doc method input).errors =
      validateUrlPathParam input.urlVariables op.parameters
      ++ validateUrlQueryParam input.urlQueryParams op.parameters
      ++ validateUrlHeaders input.headers op.parameters
      ++ validateUrlRequestBody input.requestBody op.requestBody := by
    unfold validateRequestParameters
    rw [hvp]
    dsimp only
    rw [hop]
  have hmem' : missingPathMsg pr.name ∈
      (validateRequestParameters url doc method input).errors := by
    rw [herrs]
    exact List.mem_append_left _ (List.mem_append_left _
      (List.mem_append_left _ hmsg))
  refine ⟨?_, hmem'⟩
  have hne : (validateRequestParameters url doc method input).errors ≠ [] :=
    List.ne_nil_of_mem hmem'
  have hval : (validateRequestParameters url doc method input).isValid =
      (validateRequestParameters url doc method input).errors.isEmpty := by
    unfold validateRequestParameters
    rw [hvp]
    dsimp only
    rw [hop]
  rw [hval]
  cases herr : (validateRequestParameters url doc method input).errors with
  | nil => exact absurd herr hne
  | cons a as => simp

/-- Witness for C1: the document requiring the path parameter `item_id`
with the caller omitting it from a supplied (empty) path-variable map. -/
theorem missingRequiredPathParam_reported_w :
    (validateRequestParameters "https://api.ebay.com/item/5".toList docItem
        "GET".toList ⟨some [], none, none, none⟩).isValid = false
    ∧ missingPathMsg "item_id".toList ∈
        (validateRequestParameters "https://api.ebay.com/item/5".toList
          docItem "GET".toList ⟨some [], none, none, none⟩).errors :=
  missingRequiredPathParam_reported
    "https://api.ebay.com/item/5".toList docItem "GET".toList
    ⟨some [], none, none, none⟩
    "/item/5".toList "/item/{item_id}".toList
    [("get".toList,
      ⟨[.paramP ⟨"item_id".toList, .path, true, some .strS, none, none⟩],
        none⟩)]
    ⟨[.paramP ⟨"item_id".toList, .path, true, some .strS, none, none⟩], none⟩
    ⟨"item_id".toList, .path, true, some .strS, none, none⟩ []
    (by decide) (by decide) (by simp [docItem]) rfl rfl rfl rfl

/-- Claim C10: the empty string is treated asymmetrically — a supplied
empty string for a declared required query or header parameter is reported
as a missing-required-parameter violation, while for a declared required
path parameter it passes the presence check and proceeds to schema
validation. -/
theorem emptyString_presence_asymmetry :
    ∀ (name : Str) (sch : JSchema),
      validateUrlQueryParam (some [(name, .str [])])
          [.paramP ⟨name, .query, true, some sch, none, none⟩]
        = [missingQueryMsg name]
      ∧ validateUrlHeaders (some [(name, [])])
          [.paramP ⟨name, .header, true, some sch, none, none⟩]
        = [missingHeaderMsg name]
      ∧ validateUrlPathParam (some [(name, .str [])])
          [.paramP ⟨name, .path, true, some sch, none, none⟩]
        = (if ajvValidate sch (.str []) then [] else [invalidPathMsg name]) := by
  intro name sch
  refine ⟨?_, ?_, ?_⟩
  · simp [validateUrlQueryParam, paramsAt, assocFind, isUndefNullOrEmpty]
  · have hlook : headerLookup [(name, [])] name = some [] := by
      by_cases h : lowerStr name = name
      · simp [headerLookup, assocFind, h]
      · have h' : ¬ (name = lowerStr name) := fun heq => h heq.symm
        simp [headerLookup, assocFind, h, h']
    simp [validateUrlHeaders, paramsAt, hlook]
  · simp [validateUrlPathParam, paramsAt, assocFind, isUndefOrNull, strMem,
      joinComma]

/-- Witness for C10 at a concrete parameter name and string schema (the
empty string satisfies the string schema, so the path side yields no
violation at all). -/
theorem emptyString_presence_asymmetry_w :
    validateUrlQueryParam (some [("q".toList, .str [])])
        [.paramP ⟨"q".toList, .query, true, some .strS, none, none⟩]
      = [missingQueryMsg "q".toList]
    ∧ validateUrlHeaders (some [("q".toList, [])])
        [.paramP ⟨"q".toList, .header, true, some .strS, none, none⟩]
      = [missingHeaderMsg "q".toList]
    ∧ validateUrlPathParam (some [("q".toList, .str [])])
        [.paramP ⟨"q".toList, .path, true, some .strS, none, none⟩] = [] := by
  obtain ⟨h1, h2, h3⟩ := emptyString_presence_asymmetry "q".toList .strS
  exact ⟨h1, h2, by simpa using h3⟩

/-- Claim C3: the result of `validateRequestParameters` is valid exactly
when its violation list is empty — in every branch, including the early
path/method failures — and, when path and method resolve, the violation
list is the concatenation of the independent path, query, header and body
violations, so all location categories are reported together. -/
theorem validateRequestParameters_isValid_iff :
    ∀ (url : Str) (doc : OpenApiDoc) (method : Str) (input : ValidationInput),
      ((validateRequestParameters url doc method input).isValid = true ↔
        (validateRequestParameters url doc method input).errors = [])
      ∧ ∀ (ap sp : Str) (item : PathItem) (op : Operation),
          validatePath doc url = ⟨true, ap, sp, some item⟩ →
          assocFind item (lowerStr method) = some op →
          (validateRequestParameters url doc method input).errors =
            validateUrlPathParam input.urlVariables op.parameters
            ++ validateUrlQueryParam input.urlQueryParams op.parameters
            ++ validateUrlHeaders input.headers op.parameters
            ++ validateUrlRequestBody input.requestBody op.requestBody := by
  intro url doc method input
  constructor
  · unfold validateRequestParameters
    rcases hvp : validatePath doc url with ⟨pv, ap, sp, it⟩
    cases pv with
    | true =>
      cases it with
      | some item =>
        dsimp only
        cases hop : assocFind item (lowerStr method) with
        | some op =>
          dsimp only
          cases herr : validateUrlPathParam input.urlVariables op.parameters
              ++ validateUrlQueryParam input.urlQueryParams op.parameters
              ++ validateUrlHeaders input.headers op.parameters
              ++ validateUrlRequestBody input.requestBody op.requestBody with
          | nil => simp [herr]
          | cons a as => simp [herr]
        | none => simp
      | none => dsimp only; simp
    | false => cases it <;> (dsimp only; simp)
  · intro ap sp item op hvp hop
    unfold validateRequestParameters
    rw [hvp]
    dsimp only
    rw [hop]

/-- Witness for C3: a concrete invocation violating all four location
categories at once yields all five messages in one list (two for the
missing path parameter, one each for query, header and body), and the
validity flag agrees with list emptiness. -/
theorem validateRequestParameters_isValid_iff_w :
    ((validateRequestParameters "https://api.ebay.com/ord/7".toList docMulti
        "GET".toList
        ⟨some [], some [("q".toList, .str [])], some [],
          some [("a".toList, .str "b".toList)]⟩).isValid = true ↔
      (validateRequestParameters "https://api.ebay.com/ord/7".toList docMulti
        "GET".toList
        ⟨some [], some [("q".toList, .str [])], some [],
          some [("a".toList, .str "b".toList)]⟩).errors = [])
    ∧ (validateRequestParameters "https://api.ebay.com/ord/7".toList docMulti
        "GET".toList
        ⟨some [], some [("q".toList, .str [])], some [],
          some [("a".toList, .str "b".toList)]⟩).errors =
      [missingPathMsg "id".toList,
       missingPathsMsg "id".toList,
       missingQueryMsg "q".toList,
       missingHeaderMsg "x-tok".toList,
       invalidBodyMsg] :=
  ⟨(validateRequestParameters_isValid_iff "https://api.ebay.com/ord/7".toList
      docMulti "GET".toList
      ⟨some [], some [("q".toList, .str [])], some [],
        some [("a".toList, .str "b".toList)]⟩).1,
   by decide⟩

/-- Claim C7, counterexample: a caller-supplied `User-Agent` header is
overridden by the fixed system user-agent during default-header injection,
so `Host` and `Authorization` are not the only system-controlled headers
and not every other caller-supplied header survives. -/
theorem defaultHeaders_cex :
    assocFind
        (buildHeadersFromInput
          (some [("User-Agent".toList, ["custom".toList])]) true .production
          "tok".toList)
        userAgentKey
      = some userAgentVal
    ∧ userAgentVal ≠ "custom".toList := by
  constructor
  · decide
  · decide

/-- Claim C7 (amended): during default-header injection, exactly three
headers are system-controlled — `Host`, `User-Agent` and `Authorization`
are always overwritten — while a caller-supplied nonempty `Content-Type`
and every caller-supplied header under any other name are preserved. -/
theorem defaultHeaders_preserve_caller :
    ∀ (ih : List (Str × List Str)) (b : Bool) (env : ApiEnvironment)
      (tok k v : Str),
      assocFind (buildHeadersFromInput (some ih) b env tok) hostKey
        = some (if b then DOMAIN_NAME env else DOMAIN_NAME .production)
      ∧ assocFind (buildHeadersFromInput (some ih) b env tok) userAgentKey
          = some userAgentVal
      ∧ assocFind (buildHeadersFromInput (some ih) b env tok) authKey
          = some (bearerVal tok)
      ∧ (assocFind (copyHeaders ih) contentTypeKey = some v → v ≠ [] →
          assocFind (buildHeadersFromInput (some ih) b env tok) contentTypeKey
            = some v)
      ∧ (assocFind (copyHeaders ih) k = some v →
          k ≠ hostKey → k ≠ userAgentKey → k ≠ authKey → k ≠ contentTypeKey →
          assocFind (buildHeadersFromInput (some ih) b env tok) k = some v) := by
  intro ih b env tok k v
  unfold buildHeadersFromInput fillDefaultHeaderInfo
  dsimp only
  refine ⟨?_, ?_, ?_, ?_, ?_⟩
  · rw [assocFind_jsSet_ne _ _ _ _ (by decide),
      assocFind_jsSet_ne _ _ _ _ (by decide),
      assocFind_jsSet_ne _ _ _ _ (by decide),
      assocFind_jsSet_self]
  · rw [assocFind_jsSet_ne _ _ _ _ (by decide),
      assocFind_jsSet_ne _ _ _ _ (by decide),
      assocFind_jsSet_self]
  · rw [assocFind_jsSet_ne _ _ _ _ (by decide), assocFind_jsSet_self]
  · intro hv hne
    have hct : assocFind
        (jsSet (jsSet (jsSet (copyHeaders ih) hostKey
          (if b then DOMAIN_NAME env else DOMAIN_NAME .production))
          userAgentKey userAgentVal) authKey (bearerVal tok)) contentTypeKey
        = some v := by
      rw [assocFind_jsSet_ne _ _ _ _ (by decide),
        assocFind_jsSet_ne _ _ _ _ (by decide),
        assocFind_jsSet_ne _ _ _ _ (by decide)]
      exact hv
    rw [hct]
    simp only [hne, if_pos, ne_eq, not_false_iff]
    rw [assocFind_jsSet_self]
  · intro hv hk1 hk2 hk3 hk4
    rw [assocFind_jsSet_ne _ _ _ _ (fun h => hk4 h.symm),
      assocFind_jsSet_ne _ _ _ _ (fun h => hk3 h.symm),
      assocFind_jsSet_ne _ _ _ _ (fun h => hk2 h.symm),
      assocFind_jsSet_ne _ _ _ _ (fun h => hk1 h.symm)]
    exact hv

/-- Witness for C7 at concrete values: a caller `X-Custom` header and a
caller nonempty `Content-Type` survive, while the three system headers are
set. -/
theorem defaultHeaders_preserve_caller_w :
    assocFind
        (buildHeadersFromInput
          (some [("X-Custom".toList, ["v1".toList]),
                 ("Content-Type".toList, ["text/plain".toList])])
          false .sandbox "tok".toList)
        "X-Custom".toList
      = some "v1".toList
    ∧ assocFind
        (buildHeadersFromInput
          (some [("X-Custom".toList, ["v1".toList]),
                 ("Content-Type".toList, ["text/plain".toList])])
          false .sandbox "tok".toList)
        contentTypeKey
      = some "text/plain".toList
    ∧ assocFind
        (buildHeadersFromInput
          (some [("X-Custom".toList, ["v1".toList]),
                 ("Content-Type".toList, ["text/plain".toList])])
          false .sandbox "tok".toList)
        hostKey
      = some (DOMAIN_NAME .production) := by
  obtain ⟨h1, _, _, h4, h5⟩ := defaultHeaders_preserve_caller
    [("X-Custom".toList, ["v1".toList]),
     ("Content-Type".toList, ["text/plain".toList])]
    false .sandbox "tok".toList "X-Custom".toList "v1".toList
  obtain ⟨_, _, _, h4', _⟩ := defaultHeaders_preserve_caller
    [("X-Custom".toList, ["v1".toList]),
     ("Content-Type".toList, ["text/plain".toList])]
    false .sandbox "tok".toList "X-Custom".toList "text/plain".toList
  refine ⟨?_, ?_, ?_⟩
  · exact h5 (by decide) (by decide) (by decide) (by decide) (by decide)
  · exact h4' (by decide) (by decide)
  · exact h1

/-- Claim C2, counterexample: the request path `/c/q` instantiates the
declared template `/c/{d}` with the non-slash segment `q`, yet resolution
selects the earlier-declared template `/{a}/{b}`, whose pattern also
matches, and not `/c/{d}` — so resolution does not always match an
instantiating path to its template. -/
theorem validatePath_firstMatch_cex :
    matchToks (parseTemplate "/c/{d}".toList)
        (parseApiPathFromUrl "https://x/c/q".toList) = true
    ∧ (validatePath docTwoTemplates "https://x/c/q".toList).pathValidateRes
        = true
    ∧ (validatePath docTwoTemplates "https://x/c/q".toList).specPath
        ≠ "/c/{d}".toList
    ∧ (validatePath docTwoTemplates "https://x/c/q".toList).specPath
        = "/{a}/{b}".toList := by
  refine ⟨?_, ?_, ?_, ?_⟩ <;> decide

/-- Claim C2 (amended): resolution selects the first document-declared
template whose end-anchored pattern matches; hence, for a path that fully
instantiates a declared template, resolution succeeds and selects a
template declared at or before it — never a later one — and selects the
instantiated template itself exactly when every earlier-declared pattern
fails to match. -/
theorem validatePath_firstMatch :
    ∀ (doc : OpenApiDoc) (url : Str) (pre : List (Str × PathItem)) (T : Str)
      (it : PathItem) (post : List (Str × PathItem)),
      doc.paths = pre ++ (T, it) :: post →
      parseApiPathFromUrl url ≠ [] →
      (basePathOf doc = [] ∨
        testEnd (parseTemplate (basePathOf doc)) (parseApiPathFromUrl url)
          = true) →
      matchToks (parseTemplate T) (parseApiPathFromUrl url) = true →
      (validatePath doc url).pathValidateRes = true
      ∧ (∃ pre2 it2 post2,
          doc.paths = pre2 ++ ((validatePath doc url).specPath, it2) :: post2
          ∧ pre2.length ≤ pre.length)
      ∧ ((∀ e ∈ pre,
            testEnd (parseTemplate e.1) (parseApiPathFromUrl url) = false) →
          (validatePath doc url).specPath = T) := by
  intro doc url pre T it post hpaths hap hgate hinst
  have hT : testEnd (parseTemplate T) (parseApiPathFromUrl url) = true :=
    matchToks_imp_testEnd _ _ hinst
  obtain ⟨pre2, sp, it2, post2, hfind, heq, hlen, hfirst⟩ :=
    findSpecPath_front (parseApiPathFromUrl url) pre T it post hT
  have hgate' : ¬ (basePathOf doc ≠ [] ∧
      ¬ testEnd (parseTemplate (basePathOf doc)) (parseApiPathFromUrl url)
        = true) := by
    rcases hgate with h | h
    · intro hc; exact hc.1 h
    · intro hc; exact hc.2 h
  have hvp : validatePath doc url =
      ⟨true, parseApiPathFromUrl url, sp, some it2⟩ := by
    unfold validatePath
    rw [if_neg hap, if_neg hgate', hpaths, hfind]
  rw [hvp]
  refine ⟨rfl, ⟨pre2, it2, post2, by rw [hpaths, heq], hlen⟩, fun hall => ?_⟩
  exact hfirst hall

/-- Witness for C2: in the two-template document the path `/c/q`
instantiates the second template, and resolution returns a template
declared at position at most one. -/
theorem validatePath_firstMatch_w :
    (validatePath docTwoTemplates "https://x/c/q".toList).pathValidateRes
      = true
    ∧ ∃ pre2 it2 post2,
        docTwoTemplates.paths =
          pre2 ++ ((validatePath docTwoTemplates
            "https://x/c/q".toList).specPath, it2) :: post2
        ∧ pre2.length ≤ 1 := by
  obtain ⟨h1, h2, _⟩ := validatePath_firstMatch docTwoTemplates
    "https://x/c/q".toList [("/{a}/{b}".toList, itemEmpty)] "/c/{d}".toList
    itemEmpty [] (by decide) (by decide) (Or.inl (by decide)) (by decide)
  exact ⟨h1, h2⟩

/-- Stripping a case-fixed prefix from itself plus a tail succeeds. -/
theorem stripCI_self_append (p x : Str) (hp : ∀ c ∈ p, lowerChar c = c) :
    stripCI p (p ++ x) = some x := by
  induction p with
  | nil => simp [stripCI]
  | cons a as ih =>
    have ha : lowerChar a = a := hp a (List.mem_cons_self a as)
    simp only [List.cons_append, stripCI, ha, if_pos]
    exact ih (fun c hc => hp c (List.mem_cons_of_mem a hc))

/-- Scheme recognition on a canonical `https` URL. -/
theorem schemeSplit_https (x : Str) :
    schemeSplit ("https://".toList ++ x) = some ("https://".toList, x) := by
  unfold schemeSplit
  rw [stripCI_self_append _ _ (by decide)]

/-- Scheme recognition on a canonical `http` URL. -/
theorem schemeSplit_http (x : Str) :
    schemeSplit ("http://".toList ++ x) = some ("http://".toList, x) := by
  have hne : stripCI "https://".toList ("http://".toList ++ x) = none := by
    show stripCI "https://".toList
      ('h' :: 't' :: 't' :: 'p' :: ':' :: '/' :: '/' :: x) = none
    simp [stripCI, show lowerChar ':' ≠ 's' from by decide]
  unfold schemeSplit
  rw [hne, stripCI_self_append _ _ (by decide)]

/-- The host scan splits exactly at the first host-terminating
character. -/
theorem hostSplit_append (x : Str) (c : Char) (hc : isHostEnd c = true) :
    ∀ (d : Str), (∀ ch ∈ d, isHostEnd ch = false) →
      hostSplit (d ++ c :: x) = (d, c :: x) := by
  intro d hd
  induction d with
  | nil => simp [hostSplit, hc]
  | cons a as ih =>
    have ha : isHostEnd a = false := hd a (List.mem_cons_self a as)
    have ih' := ih (fun ch hch => hd ch (List.mem_cons_of_mem a hch))
    simp [hostSplit, ha, ih']

/-- A successfully parsed URL carries one of the two canonical schemes. -/
theorem parseHttpUrl_scheme (url : Str) (u : UrlParts)
    (h : parseHttpUrl url = some u) :
    u.scheme = "http://".toList ∨ u.scheme = "https://".toList := by
  unfold parseHttpUrl at h
  cases hs : schemeSplit url with
  | none => rw [hs] at h; cases h
  | some pr =>
    rw [hs] at h
    have hscheme : pr.1 = "https://".toList ∨ pr.1 = "http://".toList := by
      unfold schemeSplit at hs
      cases h1 : stripCI "https://".toList url with
      | some rest => rw [h1] at hs; cases hs; exact Or.inl rfl
      | none =>
        rw [h1] at hs
        cases h2 : stripCI "http://".toList url with
        | some rest => rw [h2] at hs; cases hs; exact Or.inr rfl
        | none => rw [h2] at hs; cases hs
    dsimp only at h
    by_cases hh : (hostSplit pr.2).1 = []
    · rw [if_pos hh] at h; cases h
    · rw [if_neg hh] at h
      cases h
      rcases hscheme with h | h
      · exact Or.inr h
      · exact Or.inl h

/-- Re-serializing always yields a slash right after the host. -/
theorem urlToString_shape (s h r : Str) :
    ∃ t, urlToString s h r = s ++ h ++ '/' :: t := by
  unfold urlToString
  cases r with
  | nil => exact ⟨[], rfl⟩
  | cons c cs =>
    by_cases hc : c = '/'
    · subst hc; exact ⟨cs, rfl⟩
    · refine ⟨c :: cs, ?_⟩
      congr 1
      cases c
      simp_all [urlToString]

/-- Re-parsing a URL rebuilt with a known environment domain succeeds with
that domain as host. -/
theorem parseHttpUrl_rebuilt (env : ApiEnvironment) (s r : Str)
    (hs : s = "http://".toList ∨ s = "https://".toList) :
    ∃ after, parseHttpUrl (urlToString s (DOMAIN_NAME env) r)
      = some ⟨s, DOMAIN_NAME env, after⟩ := by
  obtain ⟨t, hshape⟩ := urlToString_shape s (DOMAIN_NAME env) r
  rw [hshape]
  have hhost : hostSplit (DOMAIN_NAME env ++ '/' :: t)
      = (DOMAIN_NAME env, '/' :: t) := by
    cases env <;> exact hostSplit_append t '/' (by decide) _ (by decide)
  have hlower : lowerStr (DOMAIN_NAME env) = DOMAIN_NAME env := by
    cases env <;> decide
  have hne : ¬ (DOMAIN_NAME env = ([] : Str)) := by cases env <;> decide
  refine ⟨'/' :: t, ?_⟩
  rcases hs with h | h <;> subst h
  · rw [List.append_assoc]
    unfold parseHttpUrl
    rw [schemeSplit_http]
    dsimp only
    rw [hhost]
    dsimp only
    rw [if_neg hne, hlower]
  · rw [List.append_assoc]
    unfold parseHttpUrl
    rw [schemeSplit_https]
    dsimp only
    rw [hhost]
    dsimp only
    rw [if_neg hne, hlower]

/-- Claim C5, counterexample: on an input the platform URL parser rejects,
the textual fallback replaces only the first occurrence of the other
environment domain, so applying the rewrite twice differs from applying it
once. -/
theorem replaceDomain_not_idem_cex :
    replaceDomainNameByEnvironment .production
        (replaceDomainNameByEnvironment .production
          "api.sandbox.ebay.com api.sandbox.ebay.com".toList)
      ≠ replaceDomainNameByEnvironment .production
          "api.sandbox.ebay.com api.sandbox.ebay.com".toList := by decide

/-- Claim C5 (amended): for every URL the platform parser accepts, the
environment rewrite is idempotent — a URL already on the configured
environment domain is returned unchanged, and applying the rewrite twice
equals applying it once.  (On parser-rejected inputs the textual fallback
replaces only the first occurrence of another environment domain, so
idempotence can fail there.) -/
theorem replaceDomain_idem :
    ∀ (env : ApiEnvironment) (url : Str) (u : UrlParts),
      parseHttpUrl url = some u →
      (u.host = DOMAIN_NAME env →
        replaceDomainNameByEnvironment env url = url)
      ∧ replaceDomainNameByEnvironment env
          (replaceDomainNameByEnvironment env url)
        = replaceDomainNameByEnvironment env url := by
  intro env url u hp
  have hbase : replaceDomainNameByEnvironment env url =
      if u.host ≠ DOMAIN_NAME env then
        urlToString u.scheme (DOMAIN_NAME env) u.afterHost
      else url := by
    unfold replaceDomainNameByEnvironment
    rw [hp]
  constructor
  · intro hh
    rw [hbase, if_neg (by simp [hh])]
  · by_cases hh : u.host = DOMAIN_NAME env
    · have h1 : replaceDomainNameByEnvironment env url = url := by
        rw [hbase, if_neg (by simp [hh])]
      rw [h1]
      exact h1
    · have h1 : replaceDomainNameByEnvironment env url =
          urlToString u.scheme (DOMAIN_NAME env) u.afterHost := by
        rw [hbase, if_pos (by simp [hh])]
      rw [h1]
      obtain ⟨after, hre⟩ := parseHttpUrl_rebuilt env u.scheme u.afterHost
        (parseHttpUrl_scheme url u hp)
      unfold replaceDomainNameByEnvironment
      rw [hre]
      dsimp only
      rw [if_neg (by simp)]

/-- Witness for C5: a sandbox-domain URL is returned unchanged under the
sandbox environment, and rewriting a production-domain URL to sandbox twice
equals rewriting it once. -/
theorem replaceDomain_idem_w :
    replaceDomainNameByEnvironment .sandbox
        "https://api.sandbox.ebay.com/x".toList
      = "https://api.sandbox.ebay.com/x".toList
    ∧ replaceDomainNameByEnvironment .sandbox
        (replaceDomainNameByEnvironment .sandbox
          "https://api.ebay.com/x?a=1".toList)
      = replaceDomainNameByEnvironment .sandbox
          "https://api.ebay.com/x?a=1".toList := by
  constructor
  · exact (replaceDomain_idem .sandbox "https://api.sandbox.ebay.com/x".toList
      ⟨"https://".toList, "api.sandbox.ebay.com".toList, "/x".toList⟩
      (by decide)).1 (by decide)
  · exact (replaceDomain_idem .sandbox "https://api.ebay.com/x?a=1".toList
      ⟨"https://".toList, "api.ebay.com".toList, "/x?a=1".toList⟩
      (by decide)).2
